import Mathlib

/-!
Shallow embedding of `bin/doc/generate_parameterlist.py`: the delimiter matcher
(`getEnclosedContent`), the call-site extractor (`extractParameterName`), the
reconciliation of duplicate extractions against the curated override dataset, and the
final render/exit phase.  Strings are modelled as `List Char`; the Python string
methods used by the script (`partition`, `rpartition`, `count`, `strip`, `split`,
`replace`, `ljust`, `in`) are modelled explicitly below.
-/

namespace ParamList

/-- Model of the test "does `sep` start the string": true when `sep` is an initial
segment of the second argument. -/
def isPrefixCh : List Char → List Char → Bool
  | [], _ => true
  | _ :: _, [] => false
  | a :: as, b :: bs => if a = b then isPrefixCh as bs else false

/-- Model of Python `s.partition(sep)` on character lists: split at the first
occurrence of `sep`, returning (before, found-flag, after).  When `sep` does not
occur, Python returns `(s, '', '')`, i.e. the whole string sits in the first slot. -/
def listPartition (sep : List Char) : List Char → List Char × Bool × List Char
  | [] => ([], false, [])
  | x :: xs =>
    if isPrefixCh sep (x :: xs) then ([], true, (x :: xs).drop sep.length)
    else
      let r := listPartition sep xs
      (x :: r.1, r.2.1, r.2.2)

/-- Model of Python `s.rpartition(sep)`: split at the last occurrence of `sep`.
When `sep` does not occur, Python returns `('', '', s)`: the string sits in the
third slot. -/
def listRPartition (sep : List Char) : List Char → List Char × Bool × List Char
  | [] => ([], false, [])
  | x :: xs =>
    let r := listRPartition sep xs
    if r.2.1 then (x :: r.1, true, r.2.2)
    else if isPrefixCh sep (x :: xs) then ([], true, (x :: xs).drop sep.length)
    else ([], false, x :: r.2.2)

/-- Model of Python `sep in s` (substring containment), via the partition found-flag. -/
def containsSub (sep s : List Char) : Bool := (listPartition sep s).2.1

/-- Fuel-driven worker for Python `s.count(sep)` (non-overlapping occurrences,
scanned left to right).  The fuel is an upper bound on the string length, so the
exhaustion branch is unreachable from `countSub`. -/
def countSubAux (sep : List Char) : Nat → List Char → Nat
  | _, [] => 0
  | 0, _ :: _ => 0
  | fuel + 1, x :: xs =>
    if isPrefixCh sep (x :: xs) then 1 + countSubAux sep fuel ((x :: xs).drop sep.length)
    else countSubAux sep fuel xs

/-- Model of Python `s.count(sep)` from the source. -/
def countSub (sep s : List Char) : Nat := countSubAux sep s.length s

/-- Model of Python `s.strip(c)` for a one-character strip set: remove every leading
and trailing occurrence of `c`. -/
def stripChar (c : Char) (s : List Char) : List Char :=
  ((s.dropWhile (· = c)).reverse.dropWhile (· = c)).reverse

/-- Error values for the three `raise IOError` sites of the script: the delimiter
matcher's unbalanced-content error (lines 64-67), the multiple-`getParam` error
(line 89), and the malformed-parameter-name error (lines 114 and 117, which share
one message). -/
inductive PyError where
  | unbalancedDelimiter : PyError
  | multipleOccurrences : PyError
  | malformedKey : PyError
deriving DecidableEq, Repr

/-- Model of the `while result.count(openKey) != result.count(closeKey)` loop of
`getEnclosedContent` (lines 61-68): while the counts differ, take the next
`closeKey`-delimited chunk of `rest` and append it (plus the delimiter) to
`result`; raise when `rest` has no further occurrence of `closeKey`.  The fuel is
an upper bound on `rest.length`; since every iteration strictly shrinks `rest`,
the fuel-exhaustion branch is unreachable from `getEnclosedContent`. -/
def enclosedLoopAux (openKey : List Char) (c : Char) (ck : List Char)
    (fuel : Nat) (result rest : List Char) : Except PyError (List Char) :=
  if countSub openKey result = countSub (c :: ck) result then .ok result
  else if (listPartition (c :: ck) rest).2.1 then
    match fuel with
    | 0 => .error .unbalancedDelimiter
    | f + 1 =>
      enclosedLoopAux openKey c ck f
        (result ++ (listPartition (c :: ck) rest).1 ++ (c :: ck))
        (listPartition (c :: ck) rest).2.2
  else .error .unbalancedDelimiter

/-- Model of `getEnclosedContent(string, openKey, closeKey)` (lines 51-70): cut off
everything before the first occurrence of `openKey`, accumulate `closeKey`-chunks
until the counts of `openKey` and `closeKey` in the accumulated span agree, then
return what stands strictly between the first `openKey` and the last `closeKey` of
the span.  All call sites of the script pass one-character keys; an empty
`closeKey` (on which Python's `partition` would raise `ValueError`) is mapped to
the error value. -/
def getEnclosedContent (string openKey closeKey : List Char) : Except PyError (List Char) :=
  match closeKey with
  | [] => .error .unbalancedDelimiter
  | c :: ck =>
    let s1 := openKey ++ (listPartition openKey string).2.2
    let r := listPartition (c :: ck) s1
    match enclosedLoopAux openKey c ck r.2.2.length (r.1 ++ (c :: ck)) r.2.2 with
    | .error e => .error e
    | .ok result => .ok (listRPartition (c :: ck) (listPartition openKey result).2.2).1

/-- Record returned by `extractParameterName` (lines 119-123): the template
argument, the parameter name with its surrounding quotes stripped, and the
optional default-value expression. -/
structure RawExtraction where
  paramType : List Char
  paramName : List Char
  defaultValue : Option (List Char)
deriving DecidableEq, Repr

/-- Model of Python `line.split(sep)[1]` for a separator known to occur in `line`:
the text between the first occurrence of `sep` and the following occurrence (or
the rest of the string when `sep` occurs only once). -/
def splitSecond (sep s : List Char) : List Char :=
  (listPartition sep (listPartition sep s).2.2).1

/-- Branch selection of `extractParameterName` (lines 78-85): prefer the
`getParamFromGroup<` variant, then the `getParam<` variant, else the line is not a
candidate.  Returns the text after the matched idiom token and the
`hasGroupPrefix` flag. -/
def detectBranch (line : List Char) : Option (List Char × Bool) :=
  if containsSub "getParamFromGroup<".toList line then
    some (splitSecond "getParamFromGroup".toList line, true)
  else if containsSub "getParam<".toList line then
    some (splitSecond "getParam".toList line, false)
  else none

/-- Stages of `extractParameterName` between branch selection and the key checks
(lines 88-110): the multiple-occurrence guard, trimming and cutting at `;`,
extraction of the template argument and of the argument list via
`getEnclosedContent`, dropping the group argument for the grouped variant,
splitting key from default value at the first comma, and the final whitespace
trims. -/
def parseArgs (line1 : List Char) (hasGroupPrefix : Bool) :
    Except PyError (List Char × List Char × Option (List Char)) :=
  if countSub "getParam".toList line1 > 1 then .error .multipleOccurrences
  else
    let line2 := (listPartition [';'] (stripChar ' ' (stripChar '\n' line1))).1
    match getEnclosedContent line2 ['<'] ['>'] with
    | .error e => .error e
    | .ok paramType =>
      let functionArgs0 := (listPartition ('<' :: (paramType ++ ['>'])) line2).2.2
      match getEnclosedContent functionArgs0 ['('] [')'] with
      | .error e => .error e
      | .ok functionArgs1 =>
        let functionArgs2 :=
          if hasGroupPrefix then (listPartition [','] functionArgs1).2.2 else functionArgs1
        let p := listPartition [','] functionArgs2
        let parameterName := p.1
        let defaultValueArg : Option (List Char) := if p.2.2 = [] then none else some p.2.2
        .ok (stripChar ' ' paramType, stripChar ' ' parameterName,
             defaultValueArg.map (stripChar ' '))

/-- Validity checks on the trimmed parameter name and construction of the result
(lines 112-123): raise when the name is empty, when its first or last character is
not a double quote, or when it contains a space; otherwise return the record with
the surrounding quotes stripped from the name. -/
def validateKey (paramType parameterName : List Char) (defaultValueArg : Option (List Char)) :
    Except PyError (Option RawExtraction) :=
  if parameterName.length = 0 then .error .malformedKey
  else if parameterName.head? ≠ some '"' ∨ parameterName.getLast? ≠ some '"' ∨ ' ' ∈ parameterName then
    .error .malformedKey
  else .ok (some ⟨paramType, stripChar '"' parameterName, defaultValueArg⟩)

/-- Model of `extractParameterName(line)` (lines 73-123): returns `none` for a line
that contains neither call idiom, an error for the guarded failure cases, and the
`RawExtraction` record otherwise. -/
def extractParameterName (line : List Char) : Except PyError (Option RawExtraction) :=
  match detectBranch line with
  | none => .ok none
  | some (line1, hasGroupPrefix) =>
    match parseArgs line1 hasGroupPrefix with
    | .error e => .error e
    | .ok (t, k, d) => validateKey t k d

/-- Entry of the `parameterDict` built in lines 214-223: the key's name together
with the accumulated type names and default values of every raw extraction that
shares the key (the default of a single extraction may be `None`). -/
structure ParamEntry where
  paramName : List Char
  paramType : List (List Char)
  defaultValue : List (Option (List Char))
deriving DecidableEq, Repr

/-- Entry of the curated override dataset `inputDict` (`parameters.json`): the
`group`, `parameter`, `type`, `default`, `explanation` and optional `mode` fields
read in lines 226-248 and 282-351. -/
structure OverrideEntry where
  group : List Char
  parameter : List Char
  type : List (List Char)
  defaultSeq : List (List Char)
  explanation : List (List Char)
  mode : Option (List Char)
deriving DecidableEq, Repr

/-- Row of `tableEntryData` (lines 331-338 and 353-361). -/
structure TableRow where
  group : List Char
  name : List Char
  type : List Char
  defaultVal : List Char
  explanation : List Char
deriving DecidableEq, Repr

/-- Lookup in an insertion-ordered dictionary modelled as an association list. -/
def dictLookup {α : Type} (k : List Char) : List (List Char × α) → Option α
  | [] => none
  | kv :: rest => if kv.1 = k then some kv.2 else dictLookup k rest

/-- Model of Python dictionary assignment `d[k] = v`: replace the entry holding
key `k`, or append a new entry when the key is absent. -/
def dictInsert {α : Type} (k : List Char) (v : α) : List (List Char × α) → List (List Char × α)
  | [] => [(k, v)]
  | kv :: rest => if kv.1 = k then (k, v) :: rest else kv :: dictInsert k v rest

/-- Duplicate-key treatment of lines 218-219: append the new extraction's default
value and type name to the existing entry. -/
def appendDup (e : ParamEntry) (p : RawExtraction) : ParamEntry :=
  { e with defaultValue := e.defaultValue ++ [p.defaultValue],
           paramType := e.paramType ++ [p.paramType] }

/-- Body of the `for params in parameters` loop of lines 215-223. -/
def foldExtraction (d : List (List Char × ParamEntry)) (p : RawExtraction) :
    List (List Char × ParamEntry) :=
  match dictLookup p.paramName d with
  | some _ => d.map fun kv => if kv.1 = p.paramName then (kv.1, appendDup kv.2 p) else kv
  | none => d ++ [(p.paramName, ⟨p.paramName, [p.paramType], [p.defaultValue]⟩)]

/-- Model of the `parameterDict` of lines 214-223, built by folding all raw
extractions in discovery order. -/
def parameterDictOf (parameters : List RawExtraction) : List (List Char × ParamEntry) :=
  parameters.foldl foldExtraction []

/-- Fuel-driven worker for Python `s.replace(sep, repl)`; the fuel is an upper
bound on the string length. -/
def replaceSubAux (sep repl : List Char) : Nat → List Char → List Char
  | _, [] => []
  | 0, s => s
  | fuel + 1, x :: xs =>
    if isPrefixCh sep (x :: xs) then repl ++ replaceSubAux sep repl fuel ((x :: xs).drop sep.length)
    else x :: replaceSubAux sep repl fuel xs

/-- Model of Python `s.replace(sep, repl)` (used as `key.replace("-.", "")` in
lines 233 and 244). -/
def replaceSub (sep repl s : List Char) : List Char := replaceSubAux sep repl s.length s

/-- Body of the `for missingKey in missingParameters` loop of lines 235-261: a
mode-`"manual"` override entry is synthesised into the dictionary (lines 243-248,
copying the override's `default` and `type` sequences verbatim), any other missing
entry is counted as a logged error (lines 256-261). -/
def addMissingStep (acc : List (List Char × ParamEntry) × Nat)
    (kv : List Char × OverrideEntry) : List (List Char × ParamEntry) × Nat :=
  if kv.2.mode = some "manual".toList then
    (dictInsert (replaceSub "-.".toList [] kv.1)
      ⟨kv.2.group ++ ['.'] ++ kv.2.parameter, kv.2.type, kv.2.defaultSeq.map some⟩ acc.1,
     acc.2)
  else (acc.1, acc.2 + 1)

/-- Model of the missing-parameter merge of lines 233-261: every override key
whose `"-."`-stripped form is absent from `parameterDict` is processed by
`addMissingStep`.  Returns the updated dictionary and the number of errors
logged. -/
def addMissingParameters (d : List (List Char × ParamEntry))
    (inputDict : List (List Char × OverrideEntry)) : List (List Char × ParamEntry) × Nat :=
  let missing := inputDict.filter fun kv => (dictLookup (replaceSub "-.".toList [] kv.1) d).isNone
  missing.foldl addMissingStep (d, 0)

/-- Truthiness of a stored default value: Python `if e` is false for `None` and for
the empty string. -/
def truthyD : Option (List Char) → Bool
  | none => false
  | some s => !s.isEmpty

/-- Model of `next((e for e in entry["defaultValue"] if e), "-")` (line 290): the
first truthy default value, or the placeholder `"-"`. -/
def firstNonEmptyDefault (l : List (Option (List Char))) : List Char :=
  match l.find? truthyD with
  | some (some s) => s
  | _ => "-".toList

/-- Model of `hasMultiplePT` (line 292): some stored type name differs from the
first one. -/
def hasMultiplePT (entry : ParamEntry) : Bool :=
  !(entry.paramType.all (· == entry.paramType.headI))

/-- Model of `hasMultipleDV` (lines 293-295): some stored default value differs
from the first truthy one (or from `None` when there is no truthy one). -/
def hasMultipleDV (entry : ParamEntry) : Bool :=
  let dv0 := firstNonEmptyDefault entry.defaultValue
  let target : Option (List Char) := if dv0 = "-".toList then none else some dv0
  !(entry.defaultValue.all (· == target))

/-- Group derivation of line 271-272: the part of the key before the first dot, or
the sentinel `"-"` for an undotted key. -/
def groupOf (name : List Char) : List Char :=
  if countSub ['.'] name > 0 then (listPartition ['.'] name).1 else "-".toList

/-- Parameter derivation of line 273: the part of the key after the first dot, or
the whole key when it has no dot. -/
def parameterOf (name : List Char) : List Char :=
  if countSub ['.'] name > 0 then (listPartition ['.'] name).2.2 else name

/-- The `keyInput` of line 280 used to look the key up in the override dataset. -/
def keyInputOf (name : List Char) : List Char := groupOf name ++ ['.'] ++ parameterOf name

/-- The `NUM_ENTRIES` of lines 281-287: the maximum length of the override entry's
`default`, `type` and `explanation` sequences. -/
def overrideN (o : OverrideEntry) : Nat :=
  max (max o.defaultSeq.length o.type.length) o.explanation.length

/-- Model of one `if len(seq) < i + 1: seq.append(seq[i - 1])` padding statement
(lines 346-351).  Python's index `i - 1` is `-1` (the last element) when `i = 0`;
`none` models the `IndexError` on an unpadded empty sequence. -/
def padStep (i : Nat) (l : List (List Char)) : Option (List (List Char)) :=
  if l.length < i + 1 then
    match (if i = 0 then l.getLast? else l.get? (i - 1)) with
    | none => none
    | some x => some (l ++ [x])
  else some l

/-- Model of the `for i in range(NUM_ENTRIES)` loop of lines 344-361: pad the
three sequences as needed, then append one table row per slot.  `none` models an
uncaught `IndexError`. -/
def entryLoop (g p : List Char) :
    Nat → Nat → List (List Char) → List (List Char) → List (List Char) → List TableRow →
    Option (List TableRow × List (List Char) × List (List Char) × List (List Char))
  | _, 0, dv, em, pt, acc => some (acc, dv, em, pt)
  | i, r + 1, dv, em, pt, acc => do
    let dv' ← padStep i dv
    let em' ← padStep i em
    let pt' ← padStep i pt
    let t ← pt'.get? i
    let d ← dv'.get? i
    let e ← em'.get? i
    entryLoop g p (i + 1) r dv' em' pt' (acc ++ [⟨g, p, t, d, e⟩])

/-- Model of one iteration of the `for key in parameterDict` loop of lines
268-361, producing this key's table rows, the override dataset as left behind by
the iteration (the padding appends of lines 346-351 mutate the aliased override
lists in place), and the number of error messages logged by the iteration.
`none` models an uncaught `IndexError` (e.g. `entry["paramType"][0]` on an empty
list, or padding an empty override sequence). -/
def tableEntryDataForKey (entry : ParamEntry) (inputDict : List (List Char × OverrideEntry)) :
    Option (List TableRow × List (List Char × OverrideEntry) × Nat) :=
  let group := groupOf entry.paramName
  let parameter := parameterOf entry.paramName
  let keyInput := keyInputOf entry.paramName
  let numEntries := match dictLookup keyInput inputDict with
    | some o => overrideN o
    | none => 0
  match entry.paramType with
  | [] => none
  | parameterTypeName0 :: _ =>
    let defaultValue0 := firstNonEmptyDefault entry.defaultValue
    let errs :=
      if (hasMultiplePT entry = true ∨ hasMultipleDV entry = true) ∧ numEntries = 0 then
        1 + (if hasMultiplePT entry = true then 2 + entry.paramType.length else 0)
          + (if hasMultipleDV entry = true then 2 + entry.defaultValue.length else 0)
      else 0
    if numEntries = 0 then
      some ([⟨group, parameter, parameterTypeName0, defaultValue0, []⟩], inputDict, errs)
    else
      match dictLookup keyInput inputDict with
      | none => none
      | some o =>
        let pt := if hasMultiplePT entry = true then o.type else [parameterTypeName0]
        let dv := if hasMultipleDV entry = true ∨ defaultValue0 = "-".toList
                  then o.defaultSeq else [defaultValue0]
        match entryLoop group parameter 0 numEntries dv o.explanation pt [] with
        | none => none
        | some (rows, dv', em', pt') =>
          let o' : OverrideEntry :=
            { o with explanation := em',
                     type := if hasMultiplePT entry = true then pt' else o.type,
                     defaultSeq := if hasMultipleDV entry = true ∨ defaultValue0 = "-".toList
                                   then dv' else o.defaultSeq }
          some (rows, dictInsert keyInput o' inputDict, errs)

/-- Padding by repetition of the last given element, as the specification
describes the effect of lines 344-351: extend the sequence to length `n` with
copies of its last element. -/
def padTo (n : Nat) (l : List (List Char)) : List (List Char) :=
  l ++ List.replicate (n - l.length) (l.getLastD [])

/-- Element `k` of a sequence padded by last-element repetition: the original
element below the original length, the last given element above it. -/
def eltAt (l : List (List Char)) (k : Nat) : List Char :=
  if k < l.length then l.getD k [] else l.getLastD []

/-- Relation between an override-dataset entry before and after one key's
reconciliation iteration: the key and the scalar fields are unchanged, and each
sequence field is preserved as a prefix (padding may only append to it). -/
def overridePreserved (a b : List Char × OverrideEntry) : Prop :=
  a.1 = b.1 ∧ a.2.group = b.2.group ∧ a.2.parameter = b.2.parameter ∧ a.2.mode = b.2.mode ∧
  a.2.type <+: b.2.type ∧ a.2.defaultSeq <+: b.2.defaultSeq ∧
  a.2.explanation <+: b.2.explanation

/-- Character class stripped by Python's argumentless `str.strip()` (used on the
explanation in line 395). -/
def isPySpace (c : Char) : Bool :=
  c = ' ' || c = '\t' || c = '\n' || c = '\r' || c = '\x0B' || c = '\x0C'

/-- Model of Python `s.strip()`: remove leading and trailing whitespace. -/
def pyStrip (s : List Char) : List Char :=
  ((s.dropWhile isPySpace).reverse.dropWhile isPySpace).reverse

/-- Model of Python `s.ljust(n)`: pad on the right with spaces to width `n`
(content wider than `n` is kept in full). -/
def ljustCh (s : List Char) (n : Nat) : List Char := s ++ List.replicate (n - s.length) ' '

/-- Model of `tableEntry(...)` (lines 375-384) with the fixed column widths of
lines 368-372. -/
def tableEntry (groupEntry paramName paramTypeName defaultParamValue explanation : List Char) :
    List Char :=
  " * | ".toList ++ ljustCh groupEntry 20 ++ " | ".toList ++ ljustCh paramName 45
    ++ " | ".toList ++ ljustCh paramTypeName 24 ++ " | ".toList ++ ljustCh defaultParamValue 15
    ++ " | ".toList ++ ljustCh explanation 150 ++ " |".toList

/-- Model of the `for data in tableEntryData` loop of lines 387-410: track the
previous group, prefix `"\b "` to the group cell on a group change, count one
logged error per row whose stripped explanation is empty (lines 395-398), and
partition the formatted lines into the with-group and without-group buckets.
Returns (lines with group, lines without group, number of errors logged). -/
def renderLoop (prev : Option (List Char)) :
    List TableRow → List (List Char) × List (List Char) × Nat
  | [] => ([], [], 0)
  | r :: rs =>
    let isNew := prev ≠ some r.group
    let groupName :=
      if isNew then (if r.group ≠ "-".toList then "\\b ".toList ++ r.group else r.group)
      else r.group
    let prev' := if isNew then some r.group else prev
    let errHere := if (pyStrip r.explanation).isEmpty then 1 else 0
    let line := tableEntry groupName r.name r.type r.defaultVal r.explanation
    let rest := renderLoop prev' rs
    if groupName ≠ "-".toList then (line :: rest.1, rest.2.1, errHere + rest.2.2)
    else (rest.1, line :: rest.2.1, errHere + rest.2.2)

/-- Number of missing-explanation errors logged by the render loop. -/
def renderErrors (rows : List TableRow) : Nat := (renderLoop none rows).2.2

/-- The fixed banner part of the `HEADER` string (lines 415-431). -/
def headerTop : List Char :=
  ("/*!\n *\\internal\n * ****** W A R N I N G **************************************\n * This file is auto-generated. Do not manually edit.\n * Run bin/doc/generate_parameterlist.py\n * ***********************************************************\n *\\endinternal\n *\n *\\file\n *\\ingroup Parameter\n *\n *\\brief List of currently useable run-time parameters\n *\n * The listed run-time parameters are available in general,\n * but we point out that a certain model might not be able\n * to use every parameter!\n *\n").toList

/-- The column legend and the reserved `ParameterFile` pseudo-row of the `HEADER`
string (lines 432-448). -/
def headerLegend : List Char :=
  " * | ".toList ++ ljustCh "Group".toList 20 ++ " | ".toList ++ ljustCh "Parameter".toList 45
    ++ " | ".toList ++ ljustCh "Type".toList 24 ++ " | ".toList ++ ljustCh "Default Value".toList 15
    ++ ljustCh " | Explanation ".toList 150 ++ "|\n".toList
  ++ " * | ".toList ++ ljustCh ":-".toList 20 ++ " | ".toList ++ ljustCh ":-".toList 45
    ++ " | ".toList ++ ljustCh ":-".toList 24 ++ " | ".toList ++ ljustCh ":-".toList 15
    ++ ljustCh " | :- ".toList 150 ++ "|\n".toList
  ++ " * | ".toList ++ ljustCh "-".toList 20 ++ " | ".toList ++ ljustCh "ParameterFile".toList 45
    ++ " | ".toList ++ ljustCh "std::string".toList 24 ++ " | ".toList
    ++ ljustCh "executable.input".toList 15 ++ ljustCh " | :- ".toList 150 ++ "|\n".toList

/-- The complete `HEADER` string. -/
def headerText : List Char := headerTop ++ headerLegend

/-- Content written to the output file (lines 455-459): the header, the with-group
lines followed by the without-group lines (line 413), each with a trailing
newline, and the closing comment marker. -/
def renderedDocument (rows : List TableRow) : List Char :=
  let r := renderLoop none rows
  headerText ++ ((r.1 ++ r.2.1).map (· ++ ['\n'])).flatten ++ " */\n".toList

/-- Model of the final phase of the run (lines 450-467): the output document is
written unconditionally, then the process prints a message and chooses its exit
code from the total error count (the errors logged before rendering plus the
missing-explanation errors logged while rendering).  Returns (document, printed
message, exit code). -/
def finishRun (fileName : List Char) (priorErrors : Nat) (rows : List TableRow) :
    List Char × List Char × Nat :=
  let doc := renderedDocument rows
  let total := priorErrors + renderErrors rows
  let message :=
    if total > 0 then "Finished with errors! Check log file!".toList
    else "Successfully create new parameter list at ".toList ++ fileName
  (doc, message, if total > 0 then 1 else 0)

/-! ### Properties of the single-character string primitives -/

theorem listPartition_single_cons (c x : Char) (xs : List Char) :
    listPartition [c] (x :: xs) =
      if c = x then ([], true, xs)
      else (x :: (listPartition [c] xs).1, (listPartition [c] xs).2.1,
            (listPartition [c] xs).2.2) := by
  by_cases h : c = x <;> simp [listPartition, isPrefixCh, h]

theorem listPartition_single_not_found (c : Char) (s : List Char)
    (h : (listPartition [c] s).2.1 = false) : listPartition [c] s = (s, false, []) := by
  induction s with
  | nil => rfl
  | cons x xs ih =>
    rw [listPartition_single_cons] at h ⊢
    by_cases hcx : c = x
    · simp [hcx] at h
    · simp only [if_neg hcx] at h ⊢
      simp [ih h]

theorem listPartition_single_found (c : Char) (s : List Char)
    (h : (listPartition [c] s).2.1 = true) :
    s = (listPartition [c] s).1 ++ c :: (listPartition [c] s).2.2 ∧
      c ∉ (listPartition [c] s).1 := by
  induction s with
  | nil => simp [listPartition] at h
  | cons x xs ih =>
    rw [listPartition_single_cons] at h ⊢
    by_cases hcx : c = x
    · subst hcx; simp
    · simp only [if_neg hcx] at h ⊢
      obtain ⟨h1, h2⟩ := ih h
      refine ⟨by rw [List.cons_append, ← h1], ?_⟩
      simp only [List.mem_cons, not_or]
      exact ⟨fun hc => hcx hc, h2⟩

theorem listPartition_single_mem (c : Char) (s : List Char) (h : c ∈ s) :
    (listPartition [c] s).2.1 = true := by
  induction s with
  | nil => cases h
  | cons x xs ih =>
    rw [listPartition_single_cons]
    by_cases hcx : c = x
    · simp [hcx]
    · have hx : c ∈ xs := by
        rcases List.mem_cons.mp h with h' | h'
        · exact absurd h' hcx
        · exact h'
      simp [hcx, ih hx]

theorem countSubAux_single (c : Char) :
    ∀ (fuel : Nat) (s : List Char), s.length ≤ fuel → countSubAux [c] fuel s = s.count c := by
  intro fuel
  induction fuel with
  | zero =>
    intro s hs
    cases s with
    | nil => rfl
    | cons x xs => simp at hs
  | succ f ih =>
    intro s hs
    cases s with
    | nil => rfl
    | cons x xs =>
      have hxs : xs.length ≤ f := by simpa using Nat.le_of_succ_le_succ (by simpa using hs)
      by_cases hcx : c = x
      · subst hcx
        simp [countSubAux, isPrefixCh, ih xs hxs, List.count_cons]
        omega
      · simp [countSubAux, isPrefixCh, hcx, ih xs hxs, List.count_cons, Ne.symm hcx]

theorem countSub_single (c : Char) (s : List Char) : countSub [c] s = s.count c :=
  countSubAux_single c s.length s le_rfl

theorem listRPartition_append_single (c : Char) (X : List Char) :
    listRPartition [c] (X ++ [c]) = (X, true, []) := by
  induction X with
  | nil => simp [listRPartition, isPrefixCh]
  | cons x xs ih => simp [listRPartition, ih]

/-! ### Behaviour of the delimiter-matcher loop on balanced input -/

theorem enclosedLoopAux_done (o c : Char) (X : List Char) (hne : o ≠ c)
    (hbal : X.count o = X.count c) (fuel : Nat) :
    enclosedLoopAux [o] c [] fuel (o :: (X ++ [c])) [] = .ok (o :: (X ++ [c])) := by
  have hcount : countSub [o] (o :: (X ++ [c])) = countSub [c] (o :: (X ++ [c])) := by
    simp only [countSub_single, List.count_cons, List.count_append, List.count_nil]
    simp [hne, Ne.symm hne]
    omega
  rw [enclosedLoopAux.eq_def, if_pos hcount]

theorem enclosedLoopAux_run (o c : Char) (X : List Char) (hne : o ≠ c)
    (hpre : ∀ n, ((X.take n).count c) ≤ ((X.take n).count o))
    (hbal : X.count o = X.count c) :
    ∀ (fuel : Nat) (rest Y : List Char), rest.length ≤ fuel →
      Y ++ [c] ++ rest = X ++ [c] →
      enclosedLoopAux [o] c [] fuel (o :: (Y ++ [c])) rest = .ok (o :: (X ++ [c])) := by
  intro fuel
  induction fuel with
  | zero =>
    intro rest Y hr hE
    have hrest : rest = [] := List.eq_nil_of_length_eq_zero (Nat.le_zero.mp hr)
    subst hrest
    simp only [List.append_nil] at hE
    have hYX : Y = X := List.append_cancel_right hE
    subst hYX
    exact enclosedLoopAux_done o c Y hne hbal 0
  | succ f ih =>
    intro rest Y hr hE
    cases rest with
    | nil =>
      simp only [List.append_nil] at hE
      have hYX : Y = X := List.append_cancel_right hE
      subst hYX
      exact enclosedLoopAux_done o c Y hne hbal (f + 1)
    | cons r rs =>
      have hYle : Y.length + 1 ≤ X.length := by
        have h := congrArg List.length hE
        simp at h
        omega
      have hE' : Y ++ ([c] ++ (r :: rs)) = X ++ [c] := by
        simpa [List.append_assoc] using hE
      have hYtake : X.take Y.length = Y := by
        have h2 : (X ++ [c]).take Y.length = X.take Y.length :=
          List.take_append_of_le_length (by omega)
        rw [← h2, ← hE']
        exact List.take_left' rfl
      have hYctake : X.take (Y.length + 1) = Y ++ [c] := by
        have h2 : (X ++ [c]).take (Y.length + 1) = X.take (Y.length + 1) :=
          List.take_append_of_le_length (by omega)
        rw [← h2, ← hE', ← List.append_assoc]
        exact List.take_left' (by simp)
      have hb : Y.count c + 1 ≤ Y.count o := by
        have h := hpre (Y.length + 1)
        rw [hYctake] at h
        simpa [List.count_append, List.count_cons, hne, Ne.symm hne] using h
      have hcount : ¬ (countSub [o] (o :: (Y ++ [c])) = countSub [c] (o :: (Y ++ [c]))) := by
        simp only [countSub_single, List.count_cons, List.count_append, List.count_nil]
        simp [hne, Ne.symm hne]
        omega
      have hlast : (r :: rs).getLast? = some c := by
        have h2 : (Y ++ [c] ++ (r :: rs)).getLast? = some c := by
          rw [hE]; exact List.getLast?_concat X
        rw [List.getLast?_append] at h2
        rcases hgl : (r :: rs).getLast? with _ | l
        · simp at hgl
        · rw [hgl] at h2
          simpa using h2
      have hcin : c ∈ (r :: rs) := List.mem_of_getLast?_eq_some hlast
      have hfound := listPartition_single_mem c (r :: rs) hcin
      obtain ⟨hdec, hnotin⟩ := listPartition_single_found c (r :: rs) hfound
      rcases hlp : listPartition [c] (r :: rs) with ⟨A, fl, B⟩
      rw [hlp] at hfound hdec hnotin
      simp only at hfound hdec hnotin
      subst hfound
      have hBlen : B.length ≤ f := by
        have h1 := congrArg List.length hdec
        simp at h1 hr
        omega
      have hE2 : (Y ++ [c] ++ A) ++ [c] ++ B = X ++ [c] := by
        rw [← hE, hdec]
        simp [List.append_assoc]
      have hrec := ih B (Y ++ [c] ++ A) hBlen hE2
      rw [enclosedLoopAux.eq_def, if_neg hcount, hlp]
      simp only [if_pos]
      have hres : (o :: (Y ++ [c])) ++ A ++ (c :: ([] : List Char)) =
          o :: ((Y ++ [c] ++ A) ++ [c]) := by
        simp [List.append_assoc]
      rw [hres]
      exact hrec

/-- C1 (amended): for one-character delimiters `open ≠ close`, on input
`open ++ X ++ close` where every prefix of `X` holds at least as many `open` as
`close` characters and the total counts in `X` agree, `getEnclosedContent`
returns exactly `X`. -/
theorem getEnclosedContent_balanced (o c : Char) (X : List Char) (hne : o ≠ c)
    (hpre : ∀ n, ((X.take n).count c) ≤ ((X.take n).count o))
    (hbal : X.count o = X.count c) :
    getEnclosedContent ([o] ++ X ++ [c]) [o] [c] = .ok X := by
  have hstr : [o] ++ X ++ [c] = o :: (X ++ [c]) := by simp
  have hsplit : listPartition [o] (o :: (X ++ [c])) = ([], true, X ++ [c]) := by
    rw [listPartition_single_cons]
    simp
  have hcin : c ∈ o :: (X ++ [c]) := by simp
  have hfound := listPartition_single_mem c (o :: (X ++ [c])) hcin
  obtain ⟨hdec, hnotin⟩ := listPartition_single_found c (o :: (X ++ [c])) hfound
  rcases hlp : listPartition [c] (o :: (X ++ [c])) with ⟨A, fl, B⟩
  rw [hlp] at hfound hdec hnotin
  simp only at hfound hdec hnotin
  subst hfound
  cases A with
  | nil =>
    exfalso
    simp at hdec
    exact hne hdec.1
  | cons a A' =>
    rw [List.cons_append] at hdec
    injection hdec with hd1 hd2
    subst hd1
    have hE0 : A' ++ [c] ++ B = X ++ [c] := by
      rw [hd2]
      simp
    have hrun := enclosedLoopAux_run o c X hne hpre hbal B.length B A' le_rfl hE0
    simp only [getEnclosedContent, hstr, hsplit]
    simp only [List.append_nil, List.singleton_append, hlp]
    have hres : (o :: A') ++ [c] = o :: (A' ++ [c]) := by simp
    rw [hres, hrun]
    simp only [hsplit]
    rw [listRPartition_append_single]

/-- C1 (counterexample): with the program's own delimiters, the claim fails both
for an inner text with a `close`-before-`open` imbalance and for coinciding
delimiters: in each case the matcher returns the empty content, not the inner
text, although the inner text holds equally many `open` and `close`
characters. -/
theorem getEnclosedContent_balanced_counterexample :
    (countSub ['('] ")(".toList = countSub [')'] ")(".toList ∧
      getEnclosedContent (['('] ++ ")(".toList ++ [')']) ['('] [')'] = .ok [] ∧
      ")(".toList ≠ ([] : List Char)) ∧
    (countSub ['a'] "a".toList = countSub ['a'] "a".toList ∧
      getEnclosedContent (['a'] ++ "a".toList ++ ['a']) ['a'] ['a'] = .ok [] ∧
      "a".toList ≠ ([] : List Char)) := by
  exact ⟨⟨rfl, by rfl, by decide⟩, ⟨rfl, by rfl, by decide⟩⟩

/-- C1 (witness): the amended theorem applied at `"(" ++ "ab" ++ ")"`. -/
theorem getEnclosedContent_balanced_witness :
    getEnclosedContent (['('] ++ "ab".toList ++ [')']) ['('] [')'] = .ok "ab".toList := by
  refine getEnclosedContent_balanced '(' ')' "ab".toList (by decide) ?_ rfl
  intro n
  have h0 : List.count ')' (List.take n "ab".toList) = 0 := by
    refine List.count_eq_zero.mpr fun hm => ?_
    have h2 := List.take_subset n "ab".toList hm
    revert h2
    decide
  rw [h0]
  exact Nat.zero_le _

/-- C2 (amended): on text with no occurrence of the (one-character) open
delimiter, `getEnclosedContent` does not fail: it returns the empty content. -/
theorem getEnclosedContent_no_open (text : List Char) (o c : Char)
    (h : containsSub [o] text = false) :
    getEnclosedContent text [o] [c] = .ok [] := by
  have hnp : listPartition [o] text = (text, false, []) :=
    listPartition_single_not_found o text h
  by_cases hco : c = o
  · subst hco
    have h1 : listPartition [c] [c] = ([], true, []) := by
      rw [listPartition_single_cons]
      simp
    have h2 : enclosedLoopAux [c] c [] 0 [c] [] = .ok [c] := by
      rw [enclosedLoopAux.eq_def]
      simp
    simp only [getEnclosedContent, hnp, List.append_nil, h1, List.length_nil,
      List.nil_append, h2]
    simp [h1, listRPartition]
  · have h1 : listPartition [c] [o] = ([o], false, []) := by
      rw [listPartition_single_cons]
      simp [hco, listPartition]
    have hcount : countSub [o] [o, c] = countSub [c] [o, c] := by
      simp [countSub_single, List.count_cons, List.count_nil, hco, Ne.symm hco]
    have h2 : enclosedLoopAux [o] c [] 0 [o, c] [] = .ok [o, c] := by
      rw [enclosedLoopAux.eq_def]
      rw [if_pos hcount]
    simp only [getEnclosedContent, hnp, List.append_nil, h1, List.length_nil]
    have hres : ([o] ++ [c] : List Char) = [o, c] := by simp
    simp only [hres, h2]
    have h3 : listPartition [o] [o, c] = ([], true, [c]) := by
      rw [listPartition_single_cons]
      simp
    have h4 : listRPartition [c] ([] ++ [c]) = ([], true, []) := listRPartition_append_single c []
    simp only [List.nil_append] at h4
    simp [h3, h4]

/-- C2 (counterexample): `"hello"` holds no `'<'`, yet the matcher returns
successfully (with empty content) instead of failing with the unbalanced-
delimiter error. -/
theorem getEnclosedContent_no_open_counterexample :
    containsSub ['<'] "hello".toList = false ∧
      getEnclosedContent "hello".toList ['<'] ['>'] = .ok [] := by
  exact ⟨rfl, by rfl⟩

/-- C2 (witness): the amended theorem applied at `"xyz"` with delimiters
`'('`/`')'`. -/
theorem getEnclosedContent_no_open_witness :
    getEnclosedContent "xyz".toList ['('] [')'] = .ok [] :=
  getEnclosedContent_no_open "xyz".toList '(' ')' rfl

/-- C3: a line holding two plain `getParam` calls is not rejected with the
multiple-occurrence error the source intends (its message reads "Cannot process
multiple occurrences of getParam in one line"): the extractor silently returns
the first call's record, because the count of line 88 runs on `split(...)[1]`,
which never contains the separator it was split on. -/
theorem extract_multiple_getParam_returns_first :
    extractParameterName "a = getParam<int>(\"A\"); b = getParam<int>(\"B\");".toList =
      .ok (some ⟨"int".toList, "A".toList, none⟩) := by rfl

/-- C4 (counterexample): two key literals the claim's three checks reject are in
fact accepted: a key with an internal tab (internal whitespace other than the
space character), and the one-character key literal `"` (a single double quote,
not a pair), which even yields an empty parameter name. -/
theorem extract_malformed_key_counterexample :
    extractParameterName "getParam<int>(\"Bad\tKey\", 1)".toList =
      .ok (some ⟨"int".toList, "Bad\tKey".toList, some "1".toList⟩) ∧
    extractParameterName "getParam<int>(\", 1)".toList =
      .ok (some ⟨"int".toList, [], some "1".toList⟩) :=
  ⟨by rfl, by rfl⟩

/-- C4 (amended): for every candidate line whose pre-key stages succeed with
trimmed key literal `k`, extraction fails with the malformed-key error exactly
when `k` is empty, or its first or last character is not `'"'`, or it contains a
space character; a literal passing these checks is accepted with its surrounding
quotes stripped. -/
theorem extract_malformed_key_iff (line line1 : List Char) (hgp : Bool)
    (t k : List Char) (d : Option (List Char))
    (hb : detectBranch line = some (line1, hgp))
    (hp : parseArgs line1 hgp = .ok (t, k, d)) :
    (extractParameterName line = .error .malformedKey ↔
      (k = [] ∨ k.head? ≠ some '"' ∨ k.getLast? ≠ some '"' ∨ ' ' ∈ k)) ∧
    (¬(k = [] ∨ k.head? ≠ some '"' ∨ k.getLast? ≠ some '"' ∨ ' ' ∈ k) →
      extractParameterName line = .ok (some ⟨t, stripChar '"' k, d⟩)) := by
  have he : extractParameterName line = validateKey t k d := by
    simp [extractParameterName, hb, hp]
  rw [he]
  unfold validateKey
  constructor
  · constructor
    · intro hv
      by_cases h0 : k.length = 0
      · exact Or.inl (List.length_eq_zero.mp h0)
      · rw [if_neg h0] at hv
        by_cases h1 : (k.head? ≠ some '"' ∨ k.getLast? ≠ some '"' ∨ ' ' ∈ k)
        · exact Or.inr h1
        · rw [if_neg h1] at hv
          simp at hv
    · intro hk
      rcases hk with hk | hk
      · rw [if_pos (by simp [hk])]
      · by_cases h0 : k.length = 0
        · rw [if_pos h0]
        · rw [if_neg h0, if_pos hk]
  · intro hn
    obtain ⟨hk1, hk2⟩ := not_or.mp hn
    rw [if_neg (fun h0 => hk1 (List.length_eq_zero.mp h0)), if_neg hk2]

/-- C4 (witness): the amended characterisation applied to the specification's own
scenario line `getParam<int>("Bad Key", 1)`, whose key holds an internal
space. -/
theorem extract_malformed_key_iff_witness :
    extractParameterName "getParam<int>(\"Bad Key\", 1)".toList = .error .malformedKey := by
  have h := (extract_malformed_key_iff "getParam<int>(\"Bad Key\", 1)".toList
    "<int>(\"Bad Key\", 1)".toList false "int".toList "\"Bad Key\"".toList (some "1".toList)
    (by rfl) (by rfl)).1
  exact h.mpr (by decide)

/-- C10: for every candidate line whose pre-key stages succeed with the trimmed
key literal consisting of exactly two double-quote characters, extraction raises
no error and returns a record whose parameter name is the empty string: the
emptiness check of line 113 runs on the quoted literal (length 2) before the
quotes are stripped. -/
theorem extract_empty_quoted_key (line line1 : List Char) (hgp : Bool)
    (t : List Char) (d : Option (List Char))
    (hb : detectBranch line = some (line1, hgp))
    (hp : parseArgs line1 hgp = .ok (t, ['"', '"'], d)) :
    extractParameterName line = .ok (some ⟨t, [], d⟩) := by
  have he : extractParameterName line = validateKey t ['"', '"'] d := by
    simp [extractParameterName, hb, hp]
  rw [he]
  unfold validateKey
  rw [if_neg (by decide), if_neg (by decide)]
  have hs : stripChar '"' ['"', '"'] = [] := by rfl
  rw [hs]

/-- C10 (witness): the theorem applied to the concrete line
`getParam<int>("")`. -/
theorem extract_empty_quoted_key_witness :
    extractParameterName "getParam<int>(\"\")".toList = .ok (some ⟨"int".toList, [], none⟩) :=
  extract_empty_quoted_key _ "<int>(\"\")".toList false "int".toList none (by rfl) (by rfl)

/-- C5 (counterexample): for key `Foo` extracted with type tags `""` then `"int"`
(an empty tag arises from `getParam<>(...)`) and no override entry, the emitted
row's type is the empty first tag, not the first non-empty tag `"int"`. -/
theorem tableEntry_conflict_counterexample :
    tableEntryDataForKey ⟨"Foo".toList, [[], "int".toList], [none, none]⟩ [] =
      some ([⟨"-".toList, "Foo".toList, [], "-".toList, []⟩], [], 5) ∧
    ([] : List Char) ≠ "int".toList :=
  ⟨by rfl, by decide⟩

/-- C5 (amended): for every key whose raw extractions disagree in the code's
sense (some type tag differs from the first, or some default differs from the
reference value) and that has no override entry, the iteration logs at least one
error and emits exactly one row carrying the first type tag as extracted (even
when it is empty), the first non-empty default expression (placeholder `"-"` when
none), and an empty explanation; the override dataset is returned unchanged. -/
theorem tableEntry_conflict_one_row (entry : ParamEntry)
    (d : List (List Char × OverrideEntry))
    (h0 : dictLookup (keyInputOf entry.paramName) d = none)
    (hne : entry.paramType ≠ [])
    (hdis : hasMultiplePT entry = true ∨ hasMultipleDV entry = true) :
    ∃ n, tableEntryDataForKey entry d =
        some ([⟨groupOf entry.paramName, parameterOf entry.paramName,
          entry.paramType.headI, firstNonEmptyDefault entry.defaultValue, []⟩], d, n) ∧
      0 < n := by
  rcases hpt : entry.paramType with _ | ⟨t0, ts⟩
  · exact absurd hpt hne
  · refine ⟨1 + (if hasMultiplePT entry = true then 2 + entry.paramType.length else 0)
      + (if hasMultipleDV entry = true then 2 + entry.defaultValue.length else 0), ?_, ?_⟩
    · have hc : ((hasMultiplePT entry = true ∨ hasMultipleDV entry = true) ∧ (0 : Nat) = 0) :=
        ⟨hdis, rfl⟩
      simp only [tableEntryDataForKey, h0, hpt, if_pos hc, if_pos rfl]
      rw [← hpt]
      simp [hpt]
      intro h1 h2
      rcases hdis with h | h
      · exact absurd h (by simp [h1])
      · exact absurd h (by simp [h2])
    · omega

/-- C5 (witness): the specification's scenario, key `Foo` extracted with types
`int` then `double` and no override entry: one row with type `int` and a
positive error count. -/
theorem tableEntry_conflict_one_row_witness :
    ∃ n, tableEntryDataForKey ⟨"Foo".toList, ["int".toList, "double".toList], [none, none]⟩ [] =
        some ([⟨"-".toList, "Foo".toList, "int".toList, "-".toList, []⟩], [], n) ∧
      0 < n := by
  have h := tableEntry_conflict_one_row
    ⟨"Foo".toList, ["int".toList, "double".toList], [none, none]⟩ [] (by rfl) (by decide)
    (by left; rfl)
  simpa using h

theorem padTo_of_le (n : Nat) (l : List (List Char)) (h : n ≤ l.length) : padTo n l = l := by
  simp [padTo, Nat.sub_eq_zero_of_le h]

theorem padTo_length (n : Nat) (l : List (List Char)) : (padTo n l).length = max n l.length := by
  simp [padTo]
  omega

theorem padTo_get?_eltAt (n i : Nat) (l : List (List Char)) (hi : i < n) :
    (padTo n l).get? i = some (eltAt l i) := by
  rw [List.get?_eq_getElem?, padTo, List.getElem?_append, eltAt]
  by_cases h : i < l.length
  · rw [if_pos h, if_pos h, List.getElem?_eq_getElem h, List.getD_eq_getElem?_getD,
      List.getElem?_eq_getElem h]
    rfl
  · rw [if_neg h, if_neg h, List.getElem?_replicate, if_pos (by omega)]

theorem padStep_padTo (i : Nat) (l : List (List Char)) (hl : l ≠ []) :
    padStep i (padTo i l) = some (padTo (i + 1) l) := by
  have hlen1 : 0 < l.length := List.length_pos.mpr hl
  by_cases hle : i + 1 ≤ l.length
  · rw [padTo_of_le i l (by omega), padTo_of_le (i + 1) l hle, padStep,
      if_neg (by omega)]
  · have hlen : l.length ≤ i := by omega
    have hplen : (padTo i l).length = i := by rw [padTo_length]; omega
    rw [padStep, if_pos (by omega), if_neg (by omega : ¬ i = 0)]
    have hget : (padTo i l).get? (i - 1) = some (eltAt l (i - 1)) :=
      padTo_get?_eltAt i (i - 1) l (by omega)
    have helt : eltAt l (i - 1) = l.getLastD [] := by
      rw [eltAt]
      by_cases h : i - 1 < l.length
      · have h2 : i - 1 = l.length - 1 := by omega
        rw [if_pos h, h2, List.getD_eq_getElem?_getD, ← List.getLast?_eq_getElem?,
          List.getLastD_eq_getLast?]
      · rw [if_neg h]
    rw [hget, helt]
    show some (padTo i l ++ [l.getLastD []]) = some (padTo (i + 1) l)
    rw [padTo, padTo, List.append_assoc, ← List.replicate_succ']
    have h3 : i - l.length + 1 = i + 1 - l.length := by omega
    rw [h3]

theorem entryLoop_spec (g p : List Char) (dv em pt : List (List Char))
    (hdv : dv ≠ []) (hem : em ≠ []) (hpt : pt ≠ []) :
    ∀ (r i : Nat) (acc : List TableRow),
      entryLoop g p i r (padTo i dv) (padTo i em) (padTo i pt) acc =
        some (acc ++ (List.range r).map (fun j =>
            ⟨g, p, eltAt pt (i + j), eltAt dv (i + j), eltAt em (i + j)⟩),
          padTo (i + r) dv, padTo (i + r) em, padTo (i + r) pt) := by
  intro r
  induction r with
  | zero =>
    intro i acc
    simp [entryLoop]
  | succ r ih =>
    intro i acc
    rw [entryLoop]
    simp only [padStep_padTo i dv hdv, padStep_padTo i em hem, padStep_padTo i pt hpt,
      Option.bind_eq_bind, Option.some_bind, padTo_get?_eltAt (i + 1) i dv (by omega),
      padTo_get?_eltAt (i + 1) i em (by omega), padTo_get?_eltAt (i + 1) i pt (by omega)]
    rw [ih (i + 1)]
    have harith : (i + 1) + r = i + (r + 1) := by omega
    rw [harith]
    congr 1
    rw [List.range_succ_eq_map, List.map_cons, List.map_map]
    simp only [List.append_assoc, List.singleton_append, Nat.add_zero, List.cons_append,
      List.nil_append]
    have hmap : List.map
        (fun j => (⟨g, p, eltAt pt (i + 1 + j), eltAt dv (i + 1 + j),
          eltAt em (i + 1 + j)⟩ : TableRow)) (List.range r) =
      List.map
        ((fun j => (⟨g, p, eltAt pt (i + j), eltAt dv (i + j),
          eltAt em (i + j)⟩ : TableRow)) ∘ Nat.succ) (List.range r) := by
      refine List.map_congr_left ?_
      intro a _
      simp only [Function.comp_apply]
      have hia : i + 1 + a = i + (a + 1) := by omega
      rw [hia]
    rw [hmap]

theorem padTo_getD_eltAt (n k : Nat) (l : List (List Char)) (hk : k < n) :
    (padTo n l).getD k [] = eltAt l k := by
  rw [List.getD_eq_getElem?_getD, ← List.get?_eq_getElem?, padTo_get?_eltAt n k l hk]
  rfl

theorem entryLoop_run (g p : List Char) (dv em pt : List (List Char))
    (hdv : dv ≠ []) (hem : em ≠ []) (hpt : pt ≠ []) (n : Nat) :
    entryLoop g p 0 n dv em pt [] =
      some ((List.range n).map (fun j =>
          (⟨g, p, (padTo n pt).getD j [], (padTo n dv).getD j [],
            (padTo n em).getD j []⟩ : TableRow)),
        padTo n dv, padTo n em, padTo n pt) := by
  have h := entryLoop_spec g p dv em pt hdv hem hpt n 0 []
  rw [padTo_of_le 0 dv (Nat.zero_le _), padTo_of_le 0 em (Nat.zero_le _),
    padTo_of_le 0 pt (Nat.zero_le _)] at h
  simp only [List.nil_append, Nat.zero_add] at h
  have hmap : List.map (fun j => (⟨g, p, eltAt pt j, eltAt dv j, eltAt em j⟩ : TableRow))
      (List.range n) =
      List.map (fun j => (⟨g, p, (padTo n pt).getD j [], (padTo n dv).getD j [],
        (padTo n em).getD j []⟩ : TableRow)) (List.range n) := by
    refine List.map_congr_left ?_
    intro j hj
    have hjn : j < n := List.mem_range.mp hj
    rw [padTo_getD_eltAt n j pt hjn, padTo_getD_eltAt n j dv hjn, padTo_getD_eltAt n j em hjn]
  rw [h, hmap]

/-- C6: for every key with a matching override entry of maximum field-sequence
length `N > 0` (and non-empty sequences, which the padding's "last given
element" presupposes — an empty one would make the script crash with an
`IndexError`), the iteration emits exactly `N` table rows, one per slot of the
explanation/default/type sequences padded to length `N` by repeating the last
given element, and logs no error. -/
theorem tableEntry_override_rows (entry : ParamEntry) (d : List (List Char × OverrideEntry))
    (o : OverrideEntry)
    (hl : dictLookup (keyInputOf entry.paramName) d = some o)
    (hN : 0 < overrideN o)
    (hpt0 : entry.paramType ≠ [])
    (hem : o.explanation ≠ [])
    (htk : hasMultiplePT entry = true → o.type ≠ [])
    (hdk : hasMultipleDV entry = true ∨ firstNonEmptyDefault entry.defaultValue = "-".toList →
      o.defaultSeq ≠ []) :
    (∃ d', tableEntryDataForKey entry d =
        some ((List.range (overrideN o)).map (fun j =>
          (⟨groupOf entry.paramName, parameterOf entry.paramName,
            (padTo (overrideN o)
              (if hasMultiplePT entry = true then o.type
               else [entry.paramType.headI])).getD j [],
            (padTo (overrideN o)
              (if hasMultipleDV entry = true ∨
                  firstNonEmptyDefault entry.defaultValue = "-".toList
               then o.defaultSeq else [firstNonEmptyDefault entry.defaultValue])).getD j [],
            (padTo (overrideN o) o.explanation).getD j []⟩ : TableRow)), d', 0)) ∧
      ((List.range (overrideN o)).map (fun j =>
          (⟨groupOf entry.paramName, parameterOf entry.paramName,
            (padTo (overrideN o)
              (if hasMultiplePT entry = true then o.type
               else [entry.paramType.headI])).getD j [],
            (padTo (overrideN o)
              (if hasMultipleDV entry = true ∨
                  firstNonEmptyDefault entry.defaultValue = "-".toList
               then o.defaultSeq else [firstNonEmptyDefault entry.defaultValue])).getD j [],
            (padTo (overrideN o) o.explanation).getD j []⟩ : TableRow))).length = overrideN o := by
  rcases hpt : entry.paramType with _ | ⟨t0, ts⟩
  · exact absurd hpt hpt0
  have hptc : (if hasMultiplePT entry = true then o.type else [t0]) ≠ [] := by
    by_cases hmpt : hasMultiplePT entry = true
    · rw [if_pos hmpt]; exact htk hmpt
    · rw [if_neg hmpt]; exact List.cons_ne_nil _ _
  have hdvc : (if hasMultipleDV entry = true ∨
      firstNonEmptyDefault entry.defaultValue = "-".toList
      then o.defaultSeq else [firstNonEmptyDefault entry.defaultValue]) ≠ [] := by
    by_cases hmdv : hasMultipleDV entry = true ∨
        firstNonEmptyDefault entry.defaultValue = "-".toList
    · rw [if_pos hmdv]; exact hdk hmdv
    · rw [if_neg hmdv]; exact List.cons_ne_nil _ _
  refine ⟨⟨dictInsert (keyInputOf entry.paramName)
      { o with explanation := padTo (overrideN o) o.explanation,
               type := if hasMultiplePT entry = true
                       then padTo (overrideN o) o.type else o.type,
               defaultSeq := if hasMultipleDV entry = true ∨
                     firstNonEmptyDefault entry.defaultValue = "-".toList
                   then padTo (overrideN o) o.defaultSeq else o.defaultSeq } d, ?_⟩,
    by simp⟩
  simp only [tableEntryDataForKey, hl, hpt, if_neg (by omega : ¬ overrideN o = 0),
    entryLoop_run (groupOf entry.paramName) (parameterOf entry.paramName) _ _ _
      hdvc hem hptc (overrideN o)]
  rw [← hpt]
  by_cases hmpt : hasMultiplePT entry = true <;>
    by_cases hmdv : hasMultipleDV entry = true ∨
      firstNonEmptyDefault entry.defaultValue = ['-'] <;>
    simp [hmpt, hmdv, hpt, hN.ne']

/-- C6 (witness): the theorem applied to key `Foo` (one extraction, type `int`,
default `1`) with an override entry carrying three explanations, two defaults and
one type: three rows, padded defaults/types, no error. -/
theorem tableEntry_override_rows_witness :
    ∃ d', tableEntryDataForKey ⟨"Foo".toList, ["int".toList], [some "1".toList]⟩
        [("-.Foo".toList, ⟨"-".toList, "Foo".toList, ["int".toList],
          ["1".toList, "2".toList], ["a".toList, "b".toList, "c".toList], none⟩)] =
      some ([⟨"-".toList, "Foo".toList, "int".toList, "1".toList, "a".toList⟩,
             ⟨"-".toList, "Foo".toList, "int".toList, "1".toList, "b".toList⟩,
             ⟨"-".toList, "Foo".toList, "int".toList, "1".toList, "c".toList⟩], d', 0) := by
  obtain ⟨⟨d', hd⟩, _⟩ := tableEntry_override_rows
    ⟨"Foo".toList, ["int".toList], [some "1".toList]⟩
    [("-.Foo".toList, ⟨"-".toList, "Foo".toList, ["int".toList],
      ["1".toList, "2".toList], ["a".toList, "b".toList, "c".toList], none⟩)]
    ⟨"-".toList, "Foo".toList, ["int".toList], ["1".toList, "2".toList],
      ["a".toList, "b".toList, "c".toList], none⟩
    (by rfl) (by decide) (by decide) (by decide) (by decide) (by decide)
  refine ⟨d', ?_⟩
  rw [hd]
  rfl

/-- C7 (counterexample): an override entry with one type but two defaults, in
manual mode and absent from the code scan, is synthesised into `parameterDict`
with sequences of lengths 1 and 2: the claimed invariant
`len(typeTags) == len(defaultExprs)` fails after the manual merge. -/
theorem parameterDict_invariant_counterexample :
    ((addMissingParameters (parameterDictOf [])
        [("-.Foo".toList, ⟨"-".toList, "Foo".toList, ["int".toList],
          ["1".toList, "2".toList], [], some "manual".toList⟩)]).1.map
      (fun kv => (kv.2.paramType.length, kv.2.defaultValue.length))) = [(1, 2)] ∧
    (1 : Nat) ≠ 2 :=
  ⟨by rfl, by decide⟩

theorem foldExtraction_balanced (d : List (List Char × ParamEntry)) (p : RawExtraction)
    (h : ∀ kv ∈ d, (kv.2 : ParamEntry).paramType.length = kv.2.defaultValue.length) :
    ∀ kv ∈ foldExtraction d p, kv.2.paramType.length = kv.2.defaultValue.length := by
  intro kv hkv
  rw [foldExtraction] at hkv
  rcases hlk : dictLookup p.paramName d with _ | e
  · rw [hlk] at hkv
    rcases List.mem_append.mp hkv with hm | hm
    · exact h kv hm
    · simp at hm
      rw [hm]
      rfl
  · rw [hlk] at hkv
    obtain ⟨kv0, hkv0, heq⟩ := List.mem_map.mp hkv
    by_cases hk : kv0.1 = p.paramName
    · rw [if_pos hk] at heq
      rw [← heq]
      simp [appendDup, h kv0 hkv0]
    · rw [if_neg hk] at heq
      rw [← heq]
      exact h kv0 hkv0

theorem foldl_extractions_balanced :
    ∀ (ps : List RawExtraction) (d : List (List Char × ParamEntry)),
      (∀ kv ∈ d, (kv.2 : ParamEntry).paramType.length = kv.2.defaultValue.length) →
      ∀ kv ∈ ps.foldl foldExtraction d,
        (kv.2 : ParamEntry).paramType.length = kv.2.defaultValue.length := by
  intro ps
  induction ps with
  | nil =>
    intro d hd
    exact hd
  | cons p ps ih =>
    intro d hd
    exact ih (foldExtraction d p) (foldExtraction_balanced d p hd)

theorem dictInsert_balanced (k : List Char) (e : ParamEntry)
    (he : e.paramType.length = e.defaultValue.length) :
    ∀ (d : List (List Char × ParamEntry)),
      (∀ kv ∈ d, (kv.2 : ParamEntry).paramType.length = kv.2.defaultValue.length) →
      ∀ kv ∈ dictInsert k e d,
        (kv.2 : ParamEntry).paramType.length = kv.2.defaultValue.length := by
  intro d
  induction d with
  | nil =>
    intro _ kv hkv
    simp [dictInsert] at hkv
    rw [hkv]
    exact he
  | cons kv0 rest ih =>
    intro hd kv hkv
    simp only [dictInsert] at hkv
    by_cases hk : kv0.1 = k
    · rw [if_pos hk] at hkv
      rcases List.mem_cons.mp hkv with hm | hm
      · rw [hm]
        exact he
      · exact hd kv (List.mem_cons_of_mem _ hm)
    · rw [if_neg hk] at hkv
      rcases List.mem_cons.mp hkv with hm | hm
      · rw [hm]
        exact hd kv0 (List.mem_cons_self _ _)
      · exact ih (fun kv2 hkv2 => hd kv2 (List.mem_cons_of_mem _ hkv2)) kv hm

theorem addMissingStep_balanced (acc : List (List Char × ParamEntry) × Nat)
    (kv : List Char × OverrideEntry)
    (hacc : ∀ kv2 ∈ acc.1, (kv2.2 : ParamEntry).paramType.length = kv2.2.defaultValue.length)
    (hkv : (kv.2 : OverrideEntry).type.length = kv.2.defaultSeq.length) :
    ∀ kv2 ∈ (addMissingStep acc kv).1,
      (kv2.2 : ParamEntry).paramType.length = kv2.2.defaultValue.length := by
  rw [addMissingStep]
  by_cases hm : kv.2.mode = some "manual".toList
  · rw [if_pos hm]
    exact dictInsert_balanced _ _ (by simpa using hkv) acc.1 hacc
  · rw [if_neg hm]
    exact hacc

theorem addMissing_foldl_balanced :
    ∀ (l : List (List Char × OverrideEntry)) (acc : List (List Char × ParamEntry) × Nat),
      (∀ kv ∈ acc.1, (kv.2 : ParamEntry).paramType.length = kv.2.defaultValue.length) →
      (∀ kv ∈ l, (kv.2 : OverrideEntry).type.length = kv.2.defaultSeq.length) →
      ∀ kv ∈ (l.foldl addMissingStep acc).1,
        (kv.2 : ParamEntry).paramType.length = kv.2.defaultValue.length := by
  intro l
  induction l with
  | nil =>
    intro acc hacc _
    exact hacc
  | cons kv0 rest ih =>
    intro acc hacc hl
    exact ih (addMissingStep acc kv0)
      (addMissingStep_balanced acc kv0 hacc (hl kv0 (List.mem_cons_self _ _)))
      (fun kv2 hkv2 => hl kv2 (List.mem_cons_of_mem _ hkv2))

/-- C7 (amended): every `parameterDict` entry obtained by folding the raw
extractions satisfies `len(typeTags) = len(defaultExprs)`, and the invariant
survives the manual-mode merge provided every override entry's `type` and
`default` sequences have equal length; a manual entry with diverging sequence
lengths carries them into the dictionary verbatim and breaks the invariant. -/
theorem parameterDict_balanced (ps : List RawExtraction)
    (ovs : List (List Char × OverrideEntry))
    (hov : ∀ kv ∈ ovs, (kv.2 : OverrideEntry).type.length = kv.2.defaultSeq.length) :
    ∀ kv ∈ (addMissingParameters (parameterDictOf ps) ovs).1,
      kv.2.paramType.length = kv.2.defaultValue.length := by
  rw [addMissingParameters]
  refine addMissing_foldl_balanced _ _ ?_ ?_
  · exact foldl_extractions_balanced ps [] (by intro kv hkv; cases hkv)
  · intro kv hkv
    exact hov kv (List.mem_of_mem_filter hkv)

/-- C7 (witness): the amended invariant applied to one extraction plus one
length-consistent manual override entry. -/
theorem parameterDict_balanced_witness :
    ((addMissingParameters
        (parameterDictOf [⟨"int".toList, "Grid.Cells".toList, some "10".toList⟩])
        [("-.X".toList, ⟨"-".toList, "X".toList, ["bool".toList], ["true".toList], [],
          some "manual".toList⟩)]).1.all
      (fun kv => kv.2.paramType.length == kv.2.defaultValue.length)) = true := by
  have h := parameterDict_balanced
    [⟨"int".toList, "Grid.Cells".toList, some "10".toList⟩]
    [("-.X".toList, ⟨"-".toList, "X".toList, ["bool".toList], ["true".toList], [],
      some "manual".toList⟩)]
    (by decide)
  refine List.all_eq_true.mpr ?_
  intro kv hkv
  simp [h kv hkv]

/-- C8 (counterexample): padding mutates the aliased override entry in place: with
override explanation `["e"]` and two defaults, the returned dataset's entry holds
explanation `["e", "e"]`, so the override dataset is not left unchanged. -/
theorem override_mutation_counterexample :
    tableEntryDataForKey ⟨"Foo".toList, ["int".toList], [some "1".toList]⟩
        [("-.Foo".toList, ⟨"-".toList, "Foo".toList, ["int".toList],
          ["1".toList, "2".toList], ["e".toList], none⟩)] =
      some ([⟨"-".toList, "Foo".toList, "int".toList, "1".toList, "e".toList⟩,
             ⟨"-".toList, "Foo".toList, "int".toList, "1".toList, "e".toList⟩],
        [("-.Foo".toList, ⟨"-".toList, "Foo".toList, ["int".toList],
          ["1".toList, "2".toList], ["e".toList, "e".toList], none⟩)], 0) ∧
    (["e".toList] : List (List Char)) ≠ ["e".toList, "e".toList] :=
  ⟨by rfl, by decide⟩

theorem padStep_isPrefix (i : Nat) (l l' : List (List Char))
    (h : padStep i l = some l') : l <+: l' := by
  rw [padStep] at h
  by_cases hl : l.length < i + 1
  · rw [if_pos hl] at h
    rcases hx : (if i = 0 then l.getLast? else l.get? (i - 1)) with _ | x
    · rw [hx] at h
      simp at h
    · rw [hx] at h
      simp only [Option.some.injEq] at h
      rw [← h]
      exact ⟨[x], rfl⟩
  · rw [if_neg hl] at h
    simp only [Option.some.injEq] at h
    rw [h]

theorem entryLoop_isPrefix (g p : List Char) :
    ∀ (r i : Nat) (dv em pt : List (List Char)) (acc rows : List TableRow)
      (dv' em' pt' : List (List Char)),
      entryLoop g p i r dv em pt acc = some (rows, dv', em', pt') →
      dv <+: dv' ∧ em <+: em' ∧ pt <+: pt' := by
  intro r
  induction r with
  | zero =>
    intro i dv em pt acc rows dv' em' pt' h
    simp only [entryLoop, Option.some.injEq, Prod.mk.injEq] at h
    obtain ⟨-, h1, h2, h3⟩ := h
    exact ⟨h1 ▸ List.prefix_refl dv, h2 ▸ List.prefix_refl em, h3 ▸ List.prefix_refl pt⟩
  | succ r ih =>
    intro i dv em pt acc rows dv' em' pt' h
    simp only [entryLoop, Option.bind_eq_bind] at h
    rcases hdv : padStep i dv with _ | dv1
    · rw [hdv] at h
      simp at h
    rcases hem : padStep i em with _ | em1
    · rw [hdv, hem] at h
      simp at h
    rcases hpt : padStep i pt with _ | pt1
    · rw [hdv, hem, hpt] at h
      simp at h
    rw [hdv, hem, hpt] at h
    simp only [Option.some_bind] at h
    rcases ht : pt1.get? i with _ | t
    · rw [ht] at h
      simp at h
    rcases hd2 : dv1.get? i with _ | dval
    · rw [ht, hd2] at h
      simp at h
    rcases he2 : em1.get? i with _ | e
    · rw [ht, hd2, he2] at h
      simp at h
    rw [ht, hd2, he2] at h
    simp only [Option.some_bind] at h
    obtain ⟨h1, h2, h3⟩ := ih (i + 1) dv1 em1 pt1 _ rows dv' em' pt' h
    exact ⟨(padStep_isPrefix i dv dv1 hdv).trans h1,
      (padStep_isPrefix i em em1 hem).trans h2,
      (padStep_isPrefix i pt pt1 hpt).trans h3⟩

theorem overridePreserved_refl (kv : List Char × OverrideEntry) :
    overridePreserved kv kv :=
  ⟨rfl, rfl, rfl, rfl, List.prefix_refl _, List.prefix_refl _, List.prefix_refl _⟩

theorem dictInsert_forall₂ (k : List Char) (o o' : OverrideEntry)
    (hrel : overridePreserved (k, o) (k, o')) :
    ∀ d, dictLookup k d = some o →
      List.Forall₂ overridePreserved d (dictInsert k o' d) := by
  intro d
  induction d with
  | nil =>
    intro h
    simp [dictLookup] at h
  | cons kv rest ih =>
    intro h
    simp only [dictLookup] at h
    simp only [dictInsert]
    by_cases hk : kv.1 = k
    · rw [if_pos hk] at h ⊢
      simp only [Option.some.injEq] at h
      have hkv : kv = (k, o) := by
        rcases kv with ⟨k1, o1⟩
        simp only at hk h
        rw [hk, h]
      rw [hkv]
      exact List.Forall₂.cons hrel (List.forall₂_same.mpr fun x _ => overridePreserved_refl x)
    · rw [if_neg hk] at h ⊢
      exact List.Forall₂.cons (overridePreserved_refl kv) (ih h)

/-- C8 (amended): reconciliation of one key is read-only on the override dataset
up to padding: the returned dataset has the same entries in the same order, each
with identical key, `group`, `parameter` and `mode`, and with its original
`type`, `default` and `explanation` sequences preserved as prefixes — the
padding appends of lines 346-351 may extend the matched entry's aliased
sequences in place (they never change or remove existing elements). -/
theorem tableEntry_override_mutation (entry : ParamEntry)
    (d d' : List (List Char × OverrideEntry)) (rows : List TableRow) (n : Nat)
    (h : tableEntryDataForKey entry d = some (rows, d', n)) :
    List.Forall₂ overridePreserved d d' := by
  rcases hpt : entry.paramType with _ | ⟨t0, ts⟩
  · rw [tableEntryDataForKey, hpt] at h
    simp at h
  rcases hlk : dictLookup (keyInputOf entry.paramName) d with _ | o
  · simp only [tableEntryDataForKey, hlk, hpt, if_pos rfl, Option.some.injEq,
      Prod.mk.injEq] at h
    try obtain ⟨-, h2, -⟩ := h
    try rw [← h2]
    exact List.forall₂_same.mpr fun x _ => overridePreserved_refl x
  · simp only [tableEntryDataForKey, hlk, hpt] at h
    by_cases hnz : overrideN o = 0
    · rw [if_pos hnz] at h
      simp only [Option.some.injEq, Prod.mk.injEq] at h
      try obtain ⟨-, h2, -⟩ := h
      try rw [← h2]
      exact List.forall₂_same.mpr fun x _ => overridePreserved_refl x
    · rw [if_neg hnz] at h
      rcases hloop : entryLoop (groupOf entry.paramName) (parameterOf entry.paramName) 0
          (overrideN o)
          (if hasMultipleDV entry = true ∨ firstNonEmptyDefault entry.defaultValue = "-".toList
           then o.defaultSeq else [firstNonEmptyDefault entry.defaultValue])
          o.explanation
          (if hasMultiplePT entry = true then o.type else [t0]) [] with _ | res
      · rw [hloop] at h
        simp at h
      · rcases res with ⟨rows2, dv', em', pt'⟩
        rw [hloop] at h
        simp only [Option.some.injEq, Prod.mk.injEq] at h
        obtain ⟨-, h2, -⟩ := h
        obtain ⟨hp1, hp2, hp3⟩ := entryLoop_isPrefix (groupOf entry.paramName)
          (parameterOf entry.paramName) (overrideN o) 0 _ _ _ _ _ _ _ _ hloop
        rw [← h2]
        refine dictInsert_forall₂ (keyInputOf entry.paramName) o _ ?_ d hlk
        refine ⟨rfl, rfl, rfl, rfl, ?_, ?_, ?_⟩
        · by_cases hmpt : hasMultiplePT entry = true
          · rw [if_pos hmpt]
            rw [if_pos hmpt] at hp3
            exact hp3
          · rw [if_neg hmpt]
        · by_cases hmdv : hasMultipleDV entry = true ∨
              firstNonEmptyDefault entry.defaultValue = "-".toList
          · rw [if_pos hmdv]
            rw [if_pos hmdv] at hp1
            exact hp1
          · rw [if_neg hmdv]
        · exact hp2

/-- C8 (witness): the amended preservation applied to the counterexample's
inputs: the dataset's single entry keeps its key and scalar fields, and its
sequences as prefixes. -/
theorem tableEntry_override_mutation_witness :
    List.Forall₂ overridePreserved
      [("-.Foo".toList, ⟨"-".toList, "Foo".toList, ["int".toList],
        ["1".toList, "2".toList], ["e".toList], none⟩)]
      [("-.Foo".toList, ⟨"-".toList, "Foo".toList, ["int".toList],
        ["1".toList, "2".toList], ["e".toList, "e".toList], none⟩)] :=
  tableEntry_override_mutation ⟨"Foo".toList, ["int".toList], [some "1".toList]⟩
    [("-.Foo".toList, ⟨"-".toList, "Foo".toList, ["int".toList],
      ["1".toList, "2".toList], ["e".toList], none⟩)]
    [("-.Foo".toList, ⟨"-".toList, "Foo".toList, ["int".toList],
      ["1".toList, "2".toList], ["e".toList, "e".toList], none⟩)]
    [⟨"-".toList, "Foo".toList, "int".toList, "1".toList, "e".toList⟩,
     ⟨"-".toList, "Foo".toList, "int".toList, "1".toList, "e".toList⟩] 0 (by rfl)

theorem renderLoop_errors (rows : List TableRow) :
    ∀ prev, (renderLoop prev rows).2.2 =
      rows.countP (fun r => (pyStrip r.explanation).isEmpty) := by
  induction rows with
  | nil =>
    intro prev
    rfl
  | cons r rs ih =>
    intro prev
    simp only [renderLoop,
      apply_ite (fun x : List (List Char) × List (List Char) × Nat => x.2.2)]
    simp only [ite_self, ih, List.countP_cons]
    by_cases he : (pyStrip r.explanation).isEmpty = true
    · simp [he]
      omega
    · simp [he]

/-- C9: the final phase writes the same document whatever the error count, exits
with code 0 and the success message exactly when no error was logged, exits with
code 1 and the error message when at least one was, and a run with no prior
errors in which every row's stripped explanation is non-empty exits 0. -/
theorem process_exit_contract (fileName : List Char) (prior : Nat) (rows : List TableRow) :
    ((finishRun fileName prior rows).2.2 = 0 ↔ prior + renderErrors rows = 0) ∧
    ((finishRun fileName prior rows).2.2 = 0 →
      (finishRun fileName prior rows).2.1 =
        "Successfully create new parameter list at ".toList ++ fileName) ∧
    (0 < prior + renderErrors rows →
      (finishRun fileName prior rows).2.2 = 1 ∧
      (finishRun fileName prior rows).2.1 = "Finished with errors! Check log file!".toList) ∧
    ((finishRun fileName prior rows).1 = renderedDocument rows) ∧
    (prior = 0 → (∀ r ∈ rows, (pyStrip r.explanation).isEmpty = false) →
      (finishRun fileName prior rows).2.2 = 0) := by
  refine ⟨?_, ?_, ?_, ?_, ?_⟩
  · by_cases h : prior + renderErrors rows > 0 <;> simp [finishRun, h] <;> omega
  · intro h0
    by_cases h : prior + renderErrors rows > 0
    · simp [finishRun, h] at h0
    · simp [finishRun, h]
  · intro hpos
    simp [finishRun, hpos]
  · rfl
  · intro hp hall
    have hz : renderErrors rows = 0 := by
      rw [renderErrors, renderLoop_errors rows none]
      refine List.countP_eq_zero.mpr ?_
      intro r hr
      simp [hall r hr]
    simp [finishRun, hp, hz]

/-- C9 (witness): a run with no prior errors and one row with explanation `x`
exits with code 0. -/
theorem process_exit_contract_witness :
    (finishRun "out.txt".toList 0
      [⟨"-".toList, "Foo".toList, "int".toList, "1".toList, "x".toList⟩]).2.2 = 0 :=
  (process_exit_contract "out.txt".toList 0
    [⟨"-".toList, "Foo".toList, "int".toList, "1".toList, "x".toList⟩]).2.2.2.2 rfl
    (by decide)

end ParamList
